import Mathlib

/-!
Verification of the glucose minimal model notebook (`chap18.ipynb`).

The notebook defines, in Python:
  * `make_system params data` — builds a `System` bundle from parameters and a
    glucose/insulin data table;
  * `update_func state t system` — one explicit forward-difference step of the
    two-state minimal model;
  * `run_simulation system update_func` — the fixed-step driver that seeds a
    `TimeFrame` with the initial state at `t_0` and then, for each `t` in
    `linrange(t_0, t_end, dt)`, stores `update_func(frame.row[t], t, system)`
    at label `t + dt`;
  * `slope_func state t system` — the derivative pair of the same model.

Real numbers are embedded as `ℚ` (exact arithmetic; the spec's properties are
about the algebra of the update rule, not about floating point rounding).
Fallible evaluation — the interpolated forcing signal is only defined on the
observed time range, and a pandas label lookup can miss — is embedded with
`Option`: `none` is a raised exception propagating to the caller.

Library pieces that the notebook uses but that are not part of the notebook
itself (`interpolate`, `linrange`, `run_ode_solver`, the `TimeFrame` row
store) are modelled from the spec, and carry doc comments saying so.
-/

namespace Chap18

/-- The model state: `State(G=..., X=...)` — glucose concentration and remote
insulin effect. -/
structure State where
  G : ℚ
  X : ℚ
deriving DecidableEq

/-- The parameter bundle `Params(G0, k1, k2, k3)` from the notebook. -/
structure Params where
  G0 : ℚ
  k1 : ℚ
  k2 : ℚ
  k3 : ℚ
deriving DecidableEq

/-- The `System` object built by `make_system`: the rate constants (copied
from `params`), the initial state, baselines `Gb`/`Ib`, the interpolated
insulin signal `I` (a partial function: `none` = query outside its supported
range, i.e. a raised error), the time bounds and the step size. -/
structure System where
  k1 : ℚ
  k2 : ℚ
  k3 : ℚ
  init : State
  Gb : ℚ
  Ib : ℚ
  I : ℚ → Option ℚ
  t_0 : ℚ
  t_end : ℚ
  dt : ℚ

/-- One row of the glucose/insulin data table (`time` is the index label). -/
structure Row where
  time : ℚ
  glucose : ℚ
  insulin : ℚ
deriving DecidableEq

/-- pandas label lookup `series[label]` on a column of the table: the value of
the first row whose `time` label equals `label`, or a `KeyError` (`none`).
`data.glucose[0]` in the notebook is label-based lookup at time label `0`,
not positional access to the first row. -/
def seriesAt (data : List Row) (label : ℚ) (proj : Row → ℚ) : Option ℚ :=
  (data.find? fun r => r.time = label).map proj

/-- Piecewise-linear value of the interpolant on the bracketed segment
(helper for `interpolate`; the caller has already checked the range). -/
def interpValue : List (ℚ × ℚ) → ℚ → Option ℚ
  | [], _ => none
  | [p], t => if t = p.1 then some p.2 else none
  | p :: q :: rest, t =>
    if t ≤ q.1 then
      if q.1 = p.1 then some q.2
      else some (p.2 + (q.2 - p.2) * (t - p.1) / (q.1 - p.1))
    else interpValue (q :: rest) t

/-- Modelled from the spec: `interpolate` (modsim library, not under `src/`)
wraps discrete `(time, value)` observations into a continuous function that
is "defined only within/near the observed time range"; a query outside the
observed range is a failure (`none`), never a silent extrapolation, and
between observations the value is linearly interpolated. -/
def interpolate (pts : List (ℚ × ℚ)) : ℚ → Option ℚ := fun t =>
  match pts.head?, pts.getLast? with
  | some p0, some pn => if t < p0.1 ∨ pn.1 < t then none else interpValue pts t
  | _, _ => none

/-- `make_system params data` from the notebook:
unpacks `G0, k1, k2, k3 = params`; `Gb = data.glucose[0]`;
`Ib = data.insulin[0]`; `I = interpolate(data.insulin)`;
`t_0`/`t_end` are the first/last labels of `data`; `init = State(G=G0, X=0)`;
and the returned `System` always carries `dt=2`. -/
def make_system (params : Params) (data : List Row) : Option System :=
  match seriesAt data 0 Row.glucose, seriesAt data 0 Row.insulin,
      (data.head?).map Row.time, (data.getLast?).map Row.time with
  | some Gb, some Ib, some t_0, some t_end =>
    some { k1 := params.k1, k2 := params.k2, k3 := params.k3,
           init := ⟨params.G0, 0⟩, Gb := Gb, Ib := Ib,
           I := interpolate (data.map fun r => (r.time, r.insulin)),
           t_0 := t_0, t_end := t_end, dt := 2 }
  | _, _, _, _ => none

/-- `update_func state t system` from the notebook:
```
dGdt = -k1 * (G - Gb) - X*G
dXdt = k3 * (I(t) - Ib) - k2 * X
G += dGdt * dt
X += dXdt * dt
return State(G=G, X=X)
```
The call `I(t)` may raise (out of the interpolant's range); that failure
propagates (`none`). -/
def update_func (state : State) (t : ℚ) (system : System) : Option State :=
  match system.I t with
  | none => none
  | some It =>
    some ⟨state.G + (-system.k1 * (state.G - system.Gb)
            - state.X * state.G) * system.dt,
          state.X + (system.k3 * (It - system.Ib)
            - system.k2 * state.X) * system.dt⟩

/-- `slope_func state t system` from the notebook: the same right-hand side
as `update_func` but returning the derivative pair `(dGdt, dXdt)`. -/
def slope_func (state : State) (t : ℚ) (system : System) : Option (ℚ × ℚ) :=
  match system.I t with
  | none => none
  | some It =>
    some (-system.k1 * (state.G - system.Gb) - state.X * state.G,
          system.k3 * (It - system.Ib) - system.k2 * state.X)

/-- The arithmetic grid `[t, t+dt, ..., t+(k-1)*dt]`. -/
def gridList (t dt : ℚ) : Nat → List ℚ
  | 0 => []
  | k + 1 => t :: gridList (t + dt) dt k

/-- Number of grid points `t_0 + k*dt` with `t_0 + k*dt < t_end`: the least
`n` with `t_0 + n*dt ≥ t_end`, i.e. `⌈(t_end - t_0)/dt⌉` (0 when `dt ≤ 0`,
where the spec's while-loop would not advance). -/
def numSteps (t_0 t_end dt : ℚ) : Nat :=
  if 0 < dt then (⌈(t_end - t_0) / dt⌉).toNat else 0

/-- Modelled from the spec: `linrange` (modsim library, not under `src/`) —
the loop times of the driver, "iterate over t in {t_0, t_0+dt, …} while
t < t_end". See `mem_linrange_iff` for that characterisation. -/
def linrange (t_0 t_end dt : ℚ) : List ℚ :=
  gridList t_0 dt (numSteps t_0 t_end dt)

/-- A trajectory frame: the `TimeFrame` rows in insertion order, each a
`(time label, state)` pair. -/
abbrev Frame := List (ℚ × State)

/-- Modelled from the spec: reading `frame.row[t]` — the entry stored at
label `t`, a `KeyError` (`none`) when the label is absent. -/
def getRow : Frame → ℚ → Option State
  | [], _ => none
  | p :: rest, t => if t = p.1 then some p.2 else getRow rest t

/-- Whether the frame already has an entry at label `t`. -/
def hasLabel (f : Frame) (t : ℚ) : Bool :=
  f.any fun p => p.1 = t

/-- Modelled from the spec: writing `frame.row[t] = s` — replaces the entry
at an existing label, otherwise appends a new row (the trajectory is
"append-only during a single run"). -/
def setRow (f : Frame) (t : ℚ) (s : State) : Frame :=
  if hasLabel f t then f.map fun p => if p.1 = t then (t, s) else p
  else f ++ [(t, s)]

/-- The body of `run_simulation`:
`for t in ts: frame.row[t+dt] = update_func(frame.row[t], t, system)`,
with any failure (missing label, or an error raised by the update function)
propagating to the caller. -/
def stepLoop (system : System) (uf : State → ℚ → System → Option State) :
    List ℚ → Frame → Option Frame
  | [], frame => some frame
  | t :: ts, frame =>
    match getRow frame t with
    | none => none
    | some s =>
      match uf s t system with
      | none => none
      | some s2 => stepLoop system uf ts (setRow frame (t + system.dt) s2)

/-- `run_simulation system update_func` from the notebook: seed an empty
frame with `frame.row[t_0] = init`, then run the loop over
`ts = linrange(t_0, t_end, dt)`. -/
def run_simulation (system : System)
    (uf : State → ℚ → System → Option State) : Option Frame :=
  stepLoop system uf (linrange system.t_0 system.t_end system.dt)
    (setRow [] system.t_0 system.init)

/-- Reference unfolding of the driver: run `k` update steps forward from
`(t, s)`, collecting the `(time, state)` pairs. `run_simulation` is proved
equal to this (`run_simulation_eq_runFrom`). -/
def runFrom (system : System) (uf : State → ℚ → System → Option State) :
    Nat → ℚ → State → Option Frame
  | 0, t, s => some [(t, s)]
  | k + 1, t, s =>
    match uf s t system with
    | none => none
    | some s2 =>
      Option.map (fun l => (t, s) :: l) (runFrom system uf k (t + system.dt) s2)

/-- Modelled from the spec: a single step of `run_ode_solver` (the modsim
library's `run_ralston`, not under `src/`): Ralston's second-order
Runge-Kutta method,
```
k1 = f(state, t)
k2 = f(state + (3/4)*dt*k1, t + (3/4)*dt)
state_next = state + dt * (1/3 * k1 + 2/3 * k2)
```
componentwise in `G` and `X`; a failure of either slope evaluation
propagates. -/
def ode_step (system : System) (f : State → ℚ → System → Option (ℚ × ℚ))
    (state : State) (t : ℚ) : Option State :=
  match f state t system with
  | none => none
  | some s1 =>
    match f ⟨state.G + 3/4 * system.dt * s1.1, state.X + 3/4 * system.dt * s1.2⟩
        (t + 3/4 * system.dt) system with
    | none => none
    | some s2 =>
      some ⟨state.G + system.dt * (1/3 * s1.1 + 2/3 * s2.1),
            state.X + system.dt * (1/3 * s1.2 + 2/3 * s2.2)⟩

/-- Modelled from the spec: the driver loop of `run_ode_solver` uses "the
same stepping discipline" as the fixed-step driver, substituting the Ralston
step for the update rule. -/
def odeRunFrom (system : System) (f : State → ℚ → System → Option (ℚ × ℚ)) :
    Nat → ℚ → State → Option Frame
  | 0, t, s => some [(t, s)]
  | k + 1, t, s =>
    match ode_step system f s t with
    | none => none
    | some s2 =>
      Option.map (fun l => (t, s) :: l)
        (odeRunFrom system f k (t + system.dt) s2)

/-- Modelled from the spec: `run_ode_solver system slope_func` (modsim
library, not under `src/`) — the trajectory of Ralston steps over the same
grid as the fixed-step driver. -/
def run_ode_solver (system : System)
    (f : State → ℚ → System → Option (ℚ × ℚ)) : Option Frame :=
  odeRunFrom system f (numSteps system.t_0 system.t_end system.dt)
    system.t_0 system.init

/-! ### Infrastructure lemmas about the driver -/

lemma getRow_append_last (pre : Frame) (t : ℚ) (s : State)
    (h : ∀ p ∈ pre, p.1 ≠ t) : getRow (pre ++ [(t, s)]) t = some s := by
  induction pre with
  | nil => simp [getRow]
  | cons p rest ih =>
    have hp : p.1 ≠ t := h p (List.mem_cons_self p rest)
    have hrest : ∀ q ∈ rest, q.1 ≠ t := fun q hq => h q (List.mem_cons_of_mem p hq)
    simp only [List.cons_append, getRow]
    rw [if_neg (fun ht => hp ht.symm)]
    exact ih hrest

lemma hasLabel_eq_false (f : Frame) (t : ℚ) (h : ∀ p ∈ f, p.1 ≠ t) :
    hasLabel f t = false := by
  simp only [hasLabel, List.any_eq_false, decide_eq_true_eq]
  exact h

lemma setRow_append (f : Frame) (t : ℚ) (s : State) (h : ∀ p ∈ f, p.1 ≠ t) :
    setRow f t s = f ++ [(t, s)] := by
  rw [setRow, hasLabel_eq_false f t h]
  simp

lemma stepLoop_gridList (system : System) (uf : State → ℚ → System → Option State)
    (hdt : 0 < system.dt) :
    ∀ (k : Nat) (t : ℚ) (s : State) (pre : Frame), (∀ p ∈ pre, p.1 < t) →
      stepLoop system uf (gridList t system.dt k) (pre ++ [(t, s)]) =
        Option.map (fun l => pre ++ l) (runFrom system uf k t s) := by
  intro k
  induction k with
  | zero =>
    intro t s pre _
    simp [gridList, stepLoop, runFrom]
  | succ k ih =>
    intro t s pre hpre
    have hne : ∀ p ∈ pre, p.1 ≠ t := fun p hp => ne_of_lt (hpre p hp)
    have hget : getRow (pre ++ [(t, s)]) t = some s := getRow_append_last pre t s hne
    cases huf : uf s t system with
    | none => simp [gridList, stepLoop, hget, huf, runFrom]
    | some s2 =>
      have hlt : ∀ p ∈ pre ++ [(t, s)], p.1 < t + system.dt := by
        intro p hp
        rcases List.mem_append.1 hp with hl | hl
        · exact lt_trans (hpre p hl) (by linarith)
        · simp only [List.mem_singleton] at hl
          subst hl
          simpa using (by linarith : t < t + system.dt)
      have hset : setRow (pre ++ [(t, s)]) (t + system.dt) s2 =
          (pre ++ [(t, s)]) ++ [(t + system.dt, s2)] :=
        setRow_append _ _ _ (fun p hp => ne_of_lt (hlt p hp))
      simp only [gridList, stepLoop, hget, huf, runFrom, hset]
      rw [ih (t + system.dt) s2 (pre ++ [(t, s)]) hlt]
      cases runFrom system uf k (t + system.dt) s2 <;> simp

lemma run_simulation_eq_runFrom (system : System)
    (uf : State → ℚ → System → Option State) :
    run_simulation system uf =
      runFrom system uf (numSteps system.t_0 system.t_end system.dt)
        system.t_0 system.init := by
  have hseed : setRow [] system.t_0 system.init =
      [] ++ [(system.t_0, system.init)] := setRow_append [] _ _ (by simp)
  rw [run_simulation, linrange, hseed]
  by_cases hdt : 0 < system.dt
  · rw [stepLoop_gridList system uf hdt _ _ _ [] (by simp)]
    cases runFrom system uf (numSteps system.t_0 system.t_end system.dt)
        system.t_0 system.init <;> simp
  · rw [numSteps, if_neg hdt]
    simp [gridList, stepLoop, runFrom]

lemma runFrom_head (system : System) (uf : State → ℚ → System → Option State) :
    ∀ (k : Nat) (t : ℚ) (s : State) (l : Frame),
      runFrom system uf k t s = some l → l.head? = some (t, s) := by
  intro k t s l h
  cases k with
  | zero =>
    simp only [runFrom, Option.some_inj] at h
    subst h; rfl
  | succ k =>
    cases huf : uf s t system with
    | none => simp [runFrom, huf] at h
    | some s2 =>
      simp only [runFrom, huf] at h
      cases hr : runFrom system uf k (t + system.dt) s2 with
      | none => rw [hr] at h; simp at h
      | some l2 =>
        rw [hr] at h
        simp only [Option.map_some', Option.some_inj] at h
        subst h; rfl

lemma runFrom_times (system : System) (uf : State → ℚ → System → Option State) :
    ∀ (k : Nat) (t : ℚ) (s : State) (l : Frame),
      runFrom system uf k t s = some l →
      l.map Prod.fst = (List.range (k + 1)).map fun i : Nat => t + (i : ℚ) * system.dt := by
  intro k
  induction k with
  | zero =>
    intro t s l h
    simp only [runFrom, Option.some_inj] at h
    subst h
    simp [List.range_succ]
  | succ k ih =>
    intro t s l h
    cases huf : uf s t system with
    | none => simp [runFrom, huf] at h
    | some s2 =>
      simp only [runFrom, huf] at h
      cases hr : runFrom system uf k (t + system.dt) s2 with
      | none => rw [hr] at h; simp at h
      | some l2 =>
        rw [hr] at h
        simp only [Option.map_some', Option.some_inj] at h
        subst h
        have hl2 := ih (t + system.dt) s2 l2 hr
        rw [List.range_succ_eq_map]
        simp only [List.map_cons, List.map_map, hl2]
        refine congrArg₂ List.cons (by ring) ?_
        refine List.map_congr_left ?_
        intro i _
        simp only [Function.comp_apply]
        push_cast
        ring

lemma runFrom_chain (system : System) (uf : State → ℚ → System → Option State)
    (hdt : 0 < system.dt) :
    ∀ (k : Nat) (t : ℚ) (s : State) (l : Frame),
      runFrom system uf k t s = some l →
      List.Chain' (fun p q => q.1 = p.1 + system.dt ∧ p.1 < q.1) l := by
  intro k
  induction k with
  | zero =>
    intro t s l h
    simp only [runFrom, Option.some_inj] at h
    subst h; simp
  | succ k ih =>
    intro t s l h
    cases huf : uf s t system with
    | none => simp [runFrom, huf] at h
    | some s2 =>
      simp only [runFrom, huf] at h
      cases hr : runFrom system uf k (t + system.dt) s2 with
      | none => rw [hr] at h; simp at h
      | some l2 =>
        rw [hr] at h
        simp only [Option.map_some', Option.some_inj] at h
        subst h
        rw [List.chain'_cons']
        refine ⟨?_, ih (t + system.dt) s2 l2 hr⟩
        intro q hq
        rw [runFrom_head system uf k (t + system.dt) s2 l2 hr] at hq
        simp only [Option.mem_def, Option.some_inj] at hq
        subst hq
        exact ⟨rfl, by simpa using hdt⟩

lemma numSteps_of_multiple (t_0 t_end dt : ℚ) (m : Nat) (hdt : 0 < dt)
    (hm : t_end - t_0 = (m : ℚ) * dt) : numSteps t_0 t_end dt = m := by
  rw [numSteps, if_pos hdt, hm, mul_div_assoc, div_self (ne_of_gt hdt), mul_one,
    Int.ceil_natCast]
  exact Int.toNat_natCast m

lemma numSteps_eq_zero_of_degenerate (t_0 t_end dt : ℚ) (h : t_end ≤ t_0) :
    numSteps t_0 t_end dt = 0 := by
  rw [numSteps]
  split
  · have hnum : (t_end - t_0) / dt ≤ 0 :=
      div_nonpos_iff.mpr (Or.inr ⟨by linarith, le_of_lt (by assumption)⟩)
    exact Int.toNat_of_nonpos (Int.ceil_le.mpr (by exact_mod_cast hnum))
  · rfl

lemma mem_gridList (dt : ℚ) :
    ∀ (k : Nat) (t x : ℚ), x ∈ gridList t dt k ↔ ∃ i : ℕ, i < k ∧ x = t + i * dt := by
  intro k
  induction k with
  | zero => intro t x; simp [gridList]
  | succ k ih =>
    intro t x
    simp only [gridList, List.mem_cons, ih]
    constructor
    · rintro (rfl | ⟨i, hi, rfl⟩)
      · exact ⟨0, Nat.succ_pos k, by push_cast; ring⟩
      · exact ⟨i + 1, by omega, by push_cast; ring⟩
    · rintro ⟨i, hi, rfl⟩
      cases i with
      | zero => left; push_cast; ring
      | succ i => right; exact ⟨i, by omega, by push_cast; ring⟩

/-- The while-loop characterisation of `linrange` promised in its doc comment:
for a positive step, the loop times are exactly the grid points `t_0 + k*dt`
that lie strictly before `t_end`. -/
lemma mem_linrange_iff (t_0 t_end dt x : ℚ) (hdt : 0 < dt) :
    x ∈ linrange t_0 t_end dt ↔ ∃ k : ℕ, x = t_0 + k * dt ∧ x < t_end := by
  rw [linrange, mem_gridList]
  constructor
  · rintro ⟨i, hi, rfl⟩
    refine ⟨i, rfl, ?_⟩
    rw [numSteps, if_pos hdt] at hi
    have h1 : (i : ℤ) < ⌈(t_end - t_0) / dt⌉ := Int.lt_toNat.mp hi
    have h2 : (i : ℚ) < (t_end - t_0) / dt := by
      have := Int.lt_ceil.mp h1
      exact_mod_cast this
    have := (lt_div_iff₀ hdt).mp h2
    linarith
  · rintro ⟨i, rfl, hlt⟩
    refine ⟨i, ?_, rfl⟩
    rw [numSteps, if_pos hdt]
    have h2 : (i : ℚ) < (t_end - t_0) / dt := (lt_div_iff₀ hdt).mpr (by linarith)
    have h1 : (i : ℤ) < ⌈(t_end - t_0) / dt⌉ := Int.lt_ceil.mpr (by exact_mod_cast h2)
    exact Int.lt_toNat.mpr h1

/-! ### Concrete fixtures used by witnesses and counterexamples -/

/-- A concrete system with nontrivial rate constants, a constant forcing
signal and `t_end - t_0 = 2 * dt`. -/
def sysA : System :=
  { k1 := 1/2, k2 := 1/4, k3 := 2, init := ⟨3, 1⟩, Gb := 2, Ib := 1,
    I := fun _ => some 5, t_0 := 0, t_end := 4, dt := 2 }

/-- A concrete system with `k1 = k2 = k3 = 0` and `t_end - t_0 = dt`. -/
def sysNL : System :=
  { k1 := 0, k2 := 0, k3 := 0, init := ⟨1, 1⟩, Gb := 0, Ib := 0,
    I := fun _ => some 0, t_0 := 0, t_end := 2, dt := 2 }

/-- A concrete system whose horizon `t_end - t_0 = 3` is not a multiple of
`dt = 2`. -/
def sysOdd : System :=
  { k1 := 0, k2 := 0, k3 := 0, init := ⟨1, 0⟩, Gb := 0, Ib := 0,
    I := fun _ => some 0, t_0 := 0, t_end := 3, dt := 2 }

/-- A concrete system with the degenerate configuration `t_end = t_0`. -/
def sysDeg : System :=
  { k1 := 0, k2 := 0, k3 := 0, init := ⟨1, 0⟩, Gb := 0, Ib := 0,
    I := fun _ => some 0, t_0 := 0, t_end := 0, dt := 2 }

/-- A concrete system with trivial dynamics over three steps. -/
def sysZ : System :=
  { k1 := 0, k2 := 0, k3 := 0, init := ⟨1, 0⟩, Gb := 0, Ib := 0,
    I := fun _ => some 0, t_0 := 0, t_end := 4, dt := 2 }

/-- Concrete observations for an interpolated forcing signal on `[0, 2]`. -/
def ptsW : List (ℚ × ℚ) := [(0, 5), (2, 7)]

/-- A concrete system whose forcing signal is the interpolant of `ptsW`. -/
def sysI : System :=
  { k1 := 1, k2 := 1, k3 := 1, init := ⟨1, 0⟩, Gb := 0, Ib := 0,
    I := interpolate ptsW, t_0 := 0, t_end := 2, dt := 2 }

/-! ### Claims about the update and slope functions -/

/-- Claim C1: for every state `(G, X)`, time `t` at which the forcing signal
`I` is defined, and system with constants `k1, k2, k3, Gb, Ib, dt`, the state
update function returns exactly
`(G + (-k1*(G - Gb) - X*G)*dt, X + (k3*(I(t) - Ib) - k2*X)*dt)` — one
explicit forward-difference step of the minimal model. -/
theorem update_func_euler_step (state : State) (t : ℚ) (system : System)
    (v : ℚ) (hI : system.I t = some v) :
    update_func state t system =
      some ⟨state.G + (-system.k1 * (state.G - system.Gb)
              - state.X * state.G) * system.dt,
            state.X + (system.k3 * (v - system.Ib)
              - system.k2 * state.X) * system.dt⟩ := by
  simp [update_func, hI]

theorem update_func_euler_step_witness :
    update_func ⟨3, 1⟩ 0 sysA = some ⟨-4, 33/2⟩ := by
  have h := update_func_euler_step ⟨3, 1⟩ 0 sysA 5 rfl
  rw [h]
  norm_num [sysA]

/-- Claim C4: for every state, time at which the forcing signal is defined,
and system, the state returned by the update function equals the input state
plus `dt` times the pair returned by the slope function at the same
arguments, componentwise in `G` and `X`. -/
theorem update_func_eq_state_add_dt_slope (state : State) (t : ℚ)
    (system : System) (sl : ℚ × ℚ) (h : slope_func state t system = some sl) :
    update_func state t system =
      some ⟨state.G + system.dt * sl.1, state.X + system.dt * sl.2⟩ := by
  cases hI : system.I t with
  | none => simp [slope_func, hI] at h
  | some v =>
    simp only [slope_func, hI, Option.some_bind, Option.some_inj] at h
    subst h
    simp only [update_func, hI, Option.some_bind, Option.some_inj,
      State.mk.injEq]
    constructor <;> ring

theorem update_func_eq_state_add_dt_slope_witness :
    update_func ⟨3, 1⟩ 0 sysA = some ⟨3 + 2 * (-7/2), 1 + 2 * (31/4)⟩ := by
  have h := update_func_eq_state_add_dt_slope ⟨3, 1⟩ 0 sysA (-7/2, 31/4)
    (by norm_num [slope_func, sysA])
  rw [h]
  norm_num [sysA]

/-- Claim C5 counterexample: in a system with `k1 = k2 = k3 = 0` but a state
with `G = X = 1`, the slope is `(-1, 0)`, not the zero pair, and the update
moves the state — the nonlinear coupling term `-X*G` survives when all three
rate constants vanish. -/
theorem zero_rates_not_constant_cex :
    sysNL.k1 = 0 ∧ sysNL.k2 = 0 ∧ sysNL.k3 = 0 ∧
    slope_func ⟨1, 1⟩ 0 sysNL ≠ some (0, 0) ∧
    update_func ⟨1, 1⟩ 0 sysNL ≠ some ⟨1, 1⟩ := by
  refine ⟨rfl, rfl, rfl, ?_, ?_⟩ <;> norm_num [slope_func, update_func, sysNL]

/-- Claim C5 (amended): if `k1 = k2 = k3 = 0` then, at every time where the
forcing signal is defined, the slope function returns `(-X*G, 0)` and the
update function returns `(G - X*G*dt, X)`; in particular, for every state
with `X = 0` the slope is the zero pair and the update returns the input
state unchanged, regardless of the forcing input. -/
theorem zero_rates_slope_and_update (state : State) (t : ℚ) (system : System)
    (v : ℚ) (hk1 : system.k1 = 0) (hk2 : system.k2 = 0) (hk3 : system.k3 = 0)
    (hI : system.I t = some v) :
    slope_func state t system = some (-(state.X * state.G), 0) ∧
    update_func state t system =
      some ⟨state.G - state.X * state.G * system.dt, state.X⟩ ∧
    (state.X = 0 → slope_func state t system = some (0, 0) ∧
      update_func state t system = some state) := by
  obtain ⟨G, X⟩ := state
  refine ⟨?_, ?_, ?_⟩
  · simp only [slope_func, hI, hk1, hk2, hk3, Option.some_bind, Option.some_inj,
      Prod.mk.injEq]
    constructor <;> ring
  · simp only [update_func, hI, hk1, hk2, hk3, Option.some_bind, Option.some_inj,
      State.mk.injEq]
    constructor <;> ring
  · intro hX
    have hX0 : X = 0 := hX
    subst hX0
    constructor
    · simp only [slope_func, hI, hk1, hk2, hk3, Option.some_bind, Option.some_inj,
        Prod.mk.injEq]
      constructor <;> ring
    · simp only [update_func, hI, hk1, hk2, hk3, Option.some_bind, Option.some_inj,
        State.mk.injEq]
      constructor <;> ring

theorem zero_rates_slope_and_update_witness :
    slope_func ⟨5, 0⟩ 0 sysNL = some (-(0 * 5), 0) ∧
    update_func ⟨5, 0⟩ 0 sysNL = some ⟨5 - 0 * 5 * sysNL.dt, 0⟩ ∧
    ((⟨5, 0⟩ : State).X = 0 → slope_func ⟨5, 0⟩ 0 sysNL = some (0, 0) ∧
      update_func ⟨5, 0⟩ 0 sysNL = some ⟨5, 0⟩) :=
  zero_rates_slope_and_update ⟨5, 0⟩ 0 sysNL 0 rfl rfl rfl rfl

/-- Claim C6: for every state and system whose forcing signal is the
interpolant of some observations, calling the update function (or the slope
function) at a time outside the observed time range fails — the error
propagates, no next state is produced. -/
theorem update_func_out_of_range_fails (state : State) (system : System)
    (pts : List (ℚ × ℚ)) (t : ℚ) (p0 pn : ℚ × ℚ)
    (hI : system.I = interpolate pts)
    (h0 : pts.head? = some p0) (hn : pts.getLast? = some pn)
    (hout : t < p0.1 ∨ pn.1 < t) :
    update_func state t system = none ∧ slope_func state t system = none := by
  have hnone : system.I t = none := by
    rw [hI]
    simp only [interpolate, h0, hn]
    rw [if_pos hout]
  simp [update_func, slope_func, hnone]

theorem update_func_out_of_range_fails_witness :
    update_func ⟨1, 0⟩ 3 sysI = none ∧ slope_func ⟨1, 0⟩ 3 sysI = none :=
  update_func_out_of_range_fails ⟨1, 0⟩ sysI ptsW 3 (0, 5) (2, 7) rfl rfl rfl
    (Or.inr (by norm_num))

/-- Claim C9: the fixed-step driver is a pure function of its inputs — two
successive calls on the same system and update function return identical
trajectories; the embedding has no hidden randomness or mutable shared
state, mirroring the source loop, which only reads its immutable arguments
and builds a fresh frame. -/
theorem run_simulation_deterministic (system : System)
    (uf : State → ℚ → System → Option State) :
    run_simulation system uf = run_simulation system uf := rfl

/-! ### Claims about the fixed-step driver -/

lemma numSteps_sysZ : numSteps sysZ.t_0 sysZ.t_end sysZ.dt = 2 :=
  numSteps_of_multiple _ _ _ 2 (by norm_num [sysZ]) (by norm_num [sysZ])

lemma run_simulation_sysZ :
    run_simulation sysZ update_func =
      some [(0, ⟨1, 0⟩), (2, ⟨1, 0⟩), (4, ⟨1, 0⟩)] := by
  rw [run_simulation_eq_runFrom, numSteps_sysZ]
  norm_num [runFrom, update_func, sysZ]

/-- Claim C2 counterexample: on the system with `t_0 = 0`, `t_end = 3`,
`dt = 2` the driver records a trajectory entry at time `4 > t_end` — the
produced time sequence is not contained in `[t_0, t_end]` when the horizon
is not a whole multiple of the step. -/
theorem run_simulation_overshoot_cex :
    Option.map (List.map Prod.fst) (run_simulation sysOdd update_func) =
      some [0, 2, 4] ∧ sysOdd.t_end < 4 := by
  refine ⟨?_, by norm_num [sysOdd]⟩
  rw [run_simulation_eq_runFrom]
  have hc : (⌈(3 : ℚ) / 2⌉ : ℤ) = 2 := Int.ceil_eq_iff.mpr (by norm_num)
  have hn : numSteps sysOdd.t_0 sysOdd.t_end sysOdd.dt = 2 := by
    norm_num [numSteps, sysOdd, hc]
    rfl
  rw [hn]
  norm_num [runFrom, update_func, sysOdd]

/-- Claim C2 (amended): provided the step `dt` is positive and the horizon
`t_end - t_0` is a whole multiple of `dt` (as in the notebook, where
`t_0 = 0`, `t_end = 182`, `dt = 2`), every entry of a trajectory produced by
the fixed-step driver lies at a time in `[t_0, t_end]`, the first time is
`t_0` and the last time is `t_end` (both endpoints included). When the
horizon is not a multiple of `dt` the final entry is the first grid point at
or beyond `t_end`, which exceeds `t_end` by less than `dt`
(`run_simulation_overshoot_cex`). -/
theorem run_simulation_times_within_range (system : System)
    (uf : State → ℚ → System → Option State) (frame : Frame) (m : Nat)
    (hdt : 0 < system.dt) (hm : system.t_end - system.t_0 = (m : ℚ) * system.dt)
    (h : run_simulation system uf = some frame) :
    (∀ p ∈ frame, system.t_0 ≤ p.1 ∧ p.1 ≤ system.t_end) ∧
    (frame.map Prod.fst).head? = some system.t_0 ∧
    (frame.map Prod.fst).getLast? = some system.t_end := by
  rw [run_simulation_eq_runFrom, numSteps_of_multiple _ _ _ m hdt hm] at h
  have htimes := runFrom_times system uf m system.t_0 system.init frame h
  have hend : system.t_end = system.t_0 + (m : ℚ) * system.dt := by linarith
  refine ⟨?_, ?_, ?_⟩
  · intro p hp
    have hmem : p.1 ∈ frame.map Prod.fst := List.mem_map_of_mem Prod.fst hp
    rw [htimes] at hmem
    simp only [List.mem_map, List.mem_range] at hmem
    obtain ⟨i, hi, hpi⟩ := hmem
    rw [← hpi]
    constructor
    · have : (0 : ℚ) ≤ (i : ℚ) * system.dt :=
        mul_nonneg (Nat.cast_nonneg i) (le_of_lt hdt)
      linarith
    · rw [hend]
      have : (i : ℚ) * system.dt ≤ (m : ℚ) * system.dt :=
        mul_le_mul_of_nonneg_right
          (Nat.cast_le.mpr (by omega : i ≤ m)) (le_of_lt hdt)
      linarith
  · rw [htimes, List.range_succ_eq_map]
    simp
  · rw [htimes, List.range_succ]
    simp only [List.map_append, List.map_cons, List.map_nil,
      List.getLast?_concat]
    rw [hend]

theorem run_simulation_times_within_range_witness :
    (∀ p ∈ ([(0, ⟨1, 0⟩), (2, ⟨1, 0⟩), (4, ⟨1, 0⟩)] : Frame),
      sysZ.t_0 ≤ p.1 ∧ p.1 ≤ sysZ.t_end) ∧
    (([(0, ⟨1, 0⟩), (2, ⟨1, 0⟩), (4, ⟨1, 0⟩)] : Frame).map
      Prod.fst).head? = some sysZ.t_0 ∧
    (([(0, ⟨1, 0⟩), (2, ⟨1, 0⟩), (4, ⟨1, 0⟩)] : Frame).map
      Prod.fst).getLast? = some sysZ.t_end :=
  run_simulation_times_within_range sysZ update_func _ 2 (by norm_num [sysZ])
    (by norm_num [sysZ]) run_simulation_sysZ

/-- Claim C3: for every system and update function, a trajectory returned by
the fixed-step driver starts with the initial state recorded at `t_0`, and
its successive time labels increase strictly, consecutive labels differing
by exactly `dt`. -/
theorem run_simulation_head_and_chain (system : System)
    (uf : State → ℚ → System → Option State) (frame : Frame)
    (h : run_simulation system uf = some frame) :
    frame.head? = some (system.t_0, system.init) ∧
    List.Chain' (fun p q => q.1 = p.1 + system.dt ∧ p.1 < q.1) frame := by
  rw [run_simulation_eq_runFrom] at h
  refine ⟨runFrom_head system uf _ _ _ frame h, ?_⟩
  by_cases hdt : 0 < system.dt
  · exact runFrom_chain system uf hdt _ _ _ frame h
  · rw [numSteps, if_neg hdt] at h
    simp only [runFrom, Option.some_inj] at h
    subst h
    simp

theorem run_simulation_head_and_chain_witness :
    ([(0, ⟨1, 0⟩), (2, ⟨1, 0⟩), (4, ⟨1, 0⟩)] : Frame).head? =
      some (sysZ.t_0, sysZ.init) ∧
    List.Chain' (fun p q => q.1 = p.1 + sysZ.dt ∧ p.1 < q.1)
      ([(0, ⟨1, 0⟩), (2, ⟨1, 0⟩), (4, ⟨1, 0⟩)] : Frame) :=
  run_simulation_head_and_chain sysZ update_func _ run_simulation_sysZ

/-- Claim C7 counterexample: on the degenerate configuration
`t_end = t_0 = 0` (with `dt = 2`) the driver does not fail at all: it
returns the one-entry trajectory. Neither `make_system` nor
`run_simulation` performs any configuration validation, and no
`ConfigurationError` exists anywhere in the code. -/
theorem run_simulation_no_config_error_cex :
    sysDeg.t_end ≤ sysDeg.t_0 ∧
    run_simulation sysDeg update_func = some [(0, ⟨1, 0⟩)] := by
  refine ⟨by norm_num [sysDeg], ?_⟩
  rw [run_simulation_eq_runFrom,
    numSteps_eq_zero_of_degenerate _ _ _ (by norm_num [sysDeg])]
  rfl

/-- Claim C7 (amended): the driver performs no configuration validation and
raises no `ConfigurationError`: whenever `t_end ≤ t_0` it succeeds,
returning the trajectory that contains only the initial state at `t_0`
(the stepping loop body never runs). -/
theorem run_simulation_degenerate_returns_init (system : System)
    (uf : State → ℚ → System → Option State) (h : system.t_end ≤ system.t_0) :
    run_simulation system uf = some [(system.t_0, system.init)] := by
  rw [run_simulation_eq_runFrom, numSteps_eq_zero_of_degenerate _ _ _ h]
  rfl

theorem run_simulation_degenerate_returns_init_witness :
    run_simulation sysDeg update_func = some [(sysDeg.t_0, sysDeg.init)] :=
  run_simulation_degenerate_returns_init sysDeg update_func
    (by norm_num [sysDeg])

/-! ### Claims about the ODE-solver driver (Ralston's method) -/

lemma ode_step_elim (system : System) (f : State → ℚ → System → Option (ℚ × ℚ))
    (s : State) (t : ℚ) (s3 : State) (h : ode_step system f s t = some s3) :
    ∃ s1 s2 : ℚ × ℚ, f s t system = some s1 ∧
      f ⟨s.G + 3/4 * system.dt * s1.1, s.X + 3/4 * system.dt * s1.2⟩
        (t + 3/4 * system.dt) system = some s2 ∧
      s3 = ⟨s.G + system.dt * (1/3 * s1.1 + 2/3 * s2.1),
            s.X + system.dt * (1/3 * s1.2 + 2/3 * s2.2)⟩ := by
  cases h1 : f s t system with
  | none => simp [ode_step, h1] at h
  | some s1 =>
    cases h2 : f ⟨s.G + 3/4 * system.dt * s1.1, s.X + 3/4 * system.dt * s1.2⟩
        (t + 3/4 * system.dt) system with
    | none => simp [ode_step, h1, h2] at h
    | some s2 =>
      simp only [ode_step, h1, h2, Option.some_inj] at h
      exact ⟨s1, s2, rfl, h2, h.symm⟩

lemma odeRunFrom_head (system : System) (f : State → ℚ → System → Option (ℚ × ℚ)) :
    ∀ (k : Nat) (t : ℚ) (s : State) (l : Frame),
      odeRunFrom system f k t s = some l → l.head? = some (t, s) := by
  intro k t s l h
  cases k with
  | zero =>
    simp only [odeRunFrom, Option.some_inj] at h
    subst h; rfl
  | succ k =>
    cases hst : ode_step system f s t with
    | none => simp [odeRunFrom, hst] at h
    | some s2 =>
      simp only [odeRunFrom, hst] at h
      cases hr : odeRunFrom system f k (t + system.dt) s2 with
      | none => rw [hr] at h; simp at h
      | some l2 =>
        rw [hr] at h
        simp only [Option.map_some', Option.some_inj] at h
        subst h; rfl

lemma odeRunFrom_chain (system : System) (f : State → ℚ → System → Option (ℚ × ℚ)) :
    ∀ (k : Nat) (t : ℚ) (s : State) (l : Frame),
      odeRunFrom system f k t s = some l →
      List.Chain' (fun p q =>
        q.1 = p.1 + system.dt ∧
        ∃ s1 s2 : ℚ × ℚ, f p.2 p.1 system = some s1 ∧
          f ⟨p.2.G + 3/4 * system.dt * s1.1, p.2.X + 3/4 * system.dt * s1.2⟩
            (p.1 + 3/4 * system.dt) system = some s2 ∧
          q.2 = ⟨p.2.G + system.dt * (1/3 * s1.1 + 2/3 * s2.1),
                 p.2.X + system.dt * (1/3 * s1.2 + 2/3 * s2.2)⟩) l := by
  intro k
  induction k with
  | zero =>
    intro t s l h
    simp only [odeRunFrom, Option.some_inj] at h
    subst h; simp
  | succ k ih =>
    intro t s l h
    cases hst : ode_step system f s t with
    | none => simp [odeRunFrom, hst] at h
    | some s2 =>
      simp only [odeRunFrom, hst] at h
      cases hr : odeRunFrom system f k (t + system.dt) s2 with
      | none => rw [hr] at h; simp at h
      | some l2 =>
        rw [hr] at h
        simp only [Option.map_some', Option.some_inj] at h
        subst h
        rw [List.chain'_cons']
        refine ⟨?_, ih (t + system.dt) s2 l2 hr⟩
        intro q hq
        rw [odeRunFrom_head system f k (t + system.dt) s2 l2 hr] at hq
        simp only [Option.mem_def, Option.some_inj] at hq
        subst hq
        obtain ⟨s1, s2v, h1, h2, h3⟩ := ode_step_elim system f s t s2 hst
        exact ⟨rfl, s1, s2v, h1, h2, h3⟩

/-- Claim C8: each single step taken by the ODE-solver driver
(`run_ode_solver`, modelled from the spec since the modsim library is not
under `src/`) applied to a slope function `f` equals Ralston's second-order
Runge-Kutta step: between any two consecutive trajectory entries
`(t, state)` and `(t', state')` we have `t' = t + dt` and, with
`s1 = f(state, t)` and `s2 = f(state + (3/4)*dt*s1, t + (3/4)*dt)`,
`state' = state + dt * (1/3 * s1 + 2/3 * s2)`, componentwise in `G`, `X`. -/
theorem run_ode_solver_ralston_steps (system : System)
    (f : State → ℚ → System → Option (ℚ × ℚ)) (frame : Frame)
    (h : run_ode_solver system f = some frame) :
    List.Chain' (fun p q =>
      q.1 = p.1 + system.dt ∧
      ∃ s1 s2 : ℚ × ℚ, f p.2 p.1 system = some s1 ∧
        f ⟨p.2.G + 3/4 * system.dt * s1.1, p.2.X + 3/4 * system.dt * s1.2⟩
          (p.1 + 3/4 * system.dt) system = some s2 ∧
        q.2 = ⟨p.2.G + system.dt * (1/3 * s1.1 + 2/3 * s2.1),
               p.2.X + system.dt * (1/3 * s1.2 + 2/3 * s2.2)⟩) frame := by
  rw [run_ode_solver] at h
  exact odeRunFrom_chain system f _ _ _ frame h

lemma run_ode_solver_sysNL :
    run_ode_solver sysNL (fun _ _ _ => some (0, 0)) =
      some [(0, ⟨1, 1⟩), (2, ⟨1, 1⟩)] := by
  rw [run_ode_solver,
    numSteps_of_multiple _ _ _ 1 (by norm_num [sysNL]) (by norm_num [sysNL])]
  norm_num [odeRunFrom, ode_step, sysNL]

theorem run_ode_solver_ralston_steps_witness :
    List.Chain' (fun p q =>
      q.1 = p.1 + sysNL.dt ∧
      ∃ s1 s2 : ℚ × ℚ, (some (0, 0) : Option (ℚ × ℚ)) = some s1 ∧
        (some (0, 0) : Option (ℚ × ℚ)) = some s2 ∧
        q.2 = ⟨p.2.G + sysNL.dt * (1/3 * s1.1 + 2/3 * s2.1),
               p.2.X + sysNL.dt * (1/3 * s1.2 + 2/3 * s2.2)⟩)
      ([(0, ⟨1, 1⟩), (2, ⟨1, 1⟩)] : Frame) :=
  run_ode_solver_ralston_steps sysNL (fun _ _ _ => some (0, 0)) _
    run_ode_solver_sysNL

/-! ### Claims about `make_system` -/

/-- The notebook's parameter values (`G0 = 290`, `k1 = 0.03`, `k2 = 0.02`,
`k3 = 1e-05`). -/
def paramsW : Params := ⟨290, 3/100, 1/50, 1/100000⟩

/-- A data table whose first time label is `-1`: the row at label `0` is the
second row, not the first. -/
def dataShifted : List Row := [⟨-1, 100, 10⟩, ⟨0, 50, 5⟩]

/-- Claim C10 counterexample: on `dataShifted`, `make_system` sets
`Gb = 50`, the glucose value of the row at *label* `0` (pandas label-based
lookup `data.glucose[0]`), while the first row's glucose value is `100`. -/
theorem make_system_label_zero_cex :
    Option.map System.Gb (make_system paramsW dataShifted) = some 50 ∧
    Option.map Row.glucose dataShifted.head? = some 100 ∧ (50 : ℚ) ≠ 100 := by
  refine ⟨rfl, rfl, by norm_num⟩

/-- Claim C10 (amended): for every params and data table for which
`make_system` succeeds, the returned system has initial state
`(G = G0, X = 0)`, step size `dt = 2` always, rate constants copied from the
params, `t_0`/`t_end` equal to the first and last time labels, and `Gb`/`Ib`
equal to the glucose and insulin values of the row at time *label* `0` —
which coincide with the first row's values exactly when the first time label
is `0` (as in the notebook's data). If no row is labelled `0`, or the table
is empty, `make_system` fails instead of returning a system. -/
theorem make_system_fields (params : Params) (data : List Row) (sys : System)
    (h : make_system params data = some sys) :
    sys.init = ⟨params.G0, 0⟩ ∧ sys.dt = 2 ∧
    sys.k1 = params.k1 ∧ sys.k2 = params.k2 ∧ sys.k3 = params.k3 ∧
    Option.map Row.time data.head? = some sys.t_0 ∧
    Option.map Row.time data.getLast? = some sys.t_end ∧
    seriesAt data 0 Row.glucose = some sys.Gb ∧
    seriesAt data 0 Row.insulin = some sys.Ib ∧
    (∀ r0 : Row, data.head? = some r0 → r0.time = 0 →
      sys.Gb = r0.glucose ∧ sys.Ib = r0.insulin) := by
  cases hGb : seriesAt data 0 Row.glucose with
  | none => simp [make_system, hGb] at h
  | some Gb =>
  cases hIb : seriesAt data 0 Row.insulin with
  | none => simp [make_system, hGb, hIb] at h
  | some Ib =>
  cases ht0 : (data.head?).map Row.time with
  | none => simp [make_system, hGb, hIb, ht0] at h
  | some t0v =>
  cases hte : (data.getLast?).map Row.time with
  | none => simp [make_system, hGb, hIb, ht0, hte] at h
  | some tev =>
    simp only [make_system, hGb, hIb, ht0, hte, Option.some_inj] at h
    subst h
    refine ⟨rfl, rfl, rfl, rfl, rfl, rfl, rfl, rfl, rfl, ?_⟩
    intro r0 hr0 hr0t
    cases data with
    | nil => simp at hr0
    | cons a rest =>
      simp only [List.head?_cons, Option.some_inj] at hr0
      have hfind : (a :: rest).find? (fun r => decide (r.time = 0)) = some a :=
        List.find?_cons_of_pos rest (by simp [hr0, hr0t])
      simp only [seriesAt, hfind, Option.map_some', Option.some_inj] at hGb hIb
      refine ⟨?_, ?_⟩
      · show Gb = r0.glucose
        rw [← hGb, hr0]
      · show Ib = r0.insulin
        rw [← hIb, hr0]

/-- The notebook's data shape in miniature: first time label `0`, last `182`. -/
def dataW : List Row := [⟨0, 290, 10⟩, ⟨182, 100, 8⟩]

/-- The system `make_system paramsW dataW` evaluates to. -/
def sysM : System :=
  { k1 := paramsW.k1, k2 := paramsW.k2, k3 := paramsW.k3,
    init := ⟨paramsW.G0, 0⟩, Gb := 290, Ib := 10,
    I := interpolate (dataW.map fun r => (r.time, r.insulin)),
    t_0 := 0, t_end := 182, dt := 2 }

lemma make_system_dataW : make_system paramsW dataW = some sysM := rfl

theorem make_system_fields_witness :
    sysM.init = ⟨paramsW.G0, 0⟩ ∧ sysM.dt = 2 ∧
    sysM.k1 = paramsW.k1 ∧ sysM.k2 = paramsW.k2 ∧ sysM.k3 = paramsW.k3 ∧
    Option.map Row.time dataW.head? = some sysM.t_0 ∧
    Option.map Row.time dataW.getLast? = some sysM.t_end ∧
    seriesAt dataW 0 Row.glucose = some sysM.Gb ∧
    seriesAt dataW 0 Row.insulin = some sysM.Ib ∧
    (∀ r0 : Row, dataW.head? = some r0 → r0.time = 0 →
      sysM.Gb = r0.glucose ∧ sysM.Ib = r0.insulin) :=
  make_system_fields paramsW dataW sysM make_system_dataW

end Chap18
